import Mathlib

/-!
Verification of the HauntedTerminal natural-language shell assistant.

This file gives a shallow embedding, in Lean 4, of the components of the
repository that the verified properties talk about:

* `src/safety.py`   — risk classification and confirmation
* `src/executor.py` — syntax validation, execution, the `cd` special case
* `src/corrector.py`— fuzzy path correction
* `src/rituals.py`  — ritual (multi-step workflow) execution
* `src/history.py`  — history persistence and suggestion retrieval

Python strings are modelled as Lean `String`/`List Char` (the repository's
commands are ASCII; the few ASCII-only simplifications, e.g. `str.lower`,
are noted where they occur).  I/O effects (the subprocess, the filesystem,
the SQLite connection, the interactive prompt) are modelled by explicit
oracles/state passed to the embedded functions.
-/

namespace Haunted

/-! ### Character helpers -/

/-- Python `str.strip()` whitespace, ASCII fragment:
space, tab, newline, carriage return, vertical tab, form feed. -/
def isPyWs (c : Char) : Bool :=
  c = ' ' || c = '\t' || c = '\n' || c = '\r' ||
  c = Char.ofNat 11 || c = Char.ofNat 12

/-- Python regex `\w` (ASCII fragment): letters, digits, underscore. -/
def isWordChar (c : Char) : Bool :=
  c.isAlphanum || c = '_'

/-- Strip `isPyWs` characters from both ends (Python `str.strip()`). -/
def pyStripL (s : List Char) : List Char :=
  ((s.dropWhile isPyWs).reverse.dropWhile isPyWs).reverse

/-- `str.strip()` at `String` level. -/
def pyStrip (s : String) : String :=
  ⟨pyStripL s.data⟩

/-- Python `str.lower()` (ASCII fragment), kept kernel-evaluable by
working through the character list. -/
def pyLower (s : String) : String :=
  ⟨s.data.map Char.toLower⟩

/-- Does `w` occur at the very start of `s`? -/
def leadsWith : List Char → List Char → Bool
  | [], _ => true
  | _ :: _, [] => false
  | c :: w, d :: s => c = d && leadsWith w s

/-- Does `sub` occur as a contiguous substring of `s`? -/
def containsSub (sub : List Char) : List Char → Bool
  | [] => leadsWith sub []
  | d :: s => leadsWith sub (d :: s) || containsSub sub s

/-! ### A small regex engine

`src/safety.py` classifies commands with `re.search` over a fixed list of
patterns.  The patterns use only: literal characters, `\b`, `\s+`, `\s*`,
`.*`, a single-character negative lookbehind `(?<!2)` and a literal
negative lookahead `(?!null)`.  The engine below implements exactly these
constructs with Python `re` semantics (`.` does not match a newline; `\b`
tests `\w`-ness of the neighbouring characters; a lookbehind at the start
of the string succeeds). -/

inductive RE where
  | lit : Char → RE
  | plusWS : RE
  | starWS : RE
  | starAny : RE
  | wordB : RE
  | nlb : Char → RE
  | nla : List Char → RE
deriving Repr, DecidableEq

def isWordOpt : Option Char → Bool
  | none => false
  | some c => isWordChar c

def isWordHead : List Char → Bool
  | [] => false
  | c :: _ => isWordChar c

/-- Match a pattern against the start of `ts`; `prev` is the character
immediately before the current position (`none` at string start).
The `fuel` parameter makes the recursion structural (so that the kernel
can evaluate matches): every step strictly decreases
`ps.length + ts.length`, so the bound supplied by `mtch` below is never
exhausted and the `0` case is unreachable. -/
def mtchF : Nat → List RE → Option Char → List Char → Bool
  | 0, _, _, _ => false
  | _ + 1, [], _, _ => true
  | _ + 1, .lit _ :: _, _, [] => false
  | f + 1, .lit c :: ps, _, d :: ts => c = d && mtchF f ps (some d) ts
  | _ + 1, .plusWS :: _, _, [] => false
  | f + 1, .plusWS :: ps, _, d :: ts =>
      isPyWs d && mtchF f (.starWS :: ps) (some d) ts
  | f + 1, .starWS :: ps, prev, ts =>
      mtchF f ps prev ts ||
        (match ts with
         | [] => false
         | d :: ts2 => isPyWs d && mtchF f (.starWS :: ps) (some d) ts2)
  | f + 1, .starAny :: ps, prev, ts =>
      mtchF f ps prev ts ||
        (match ts with
         | [] => false
         | d :: ts2 => d ≠ '\n' && mtchF f (.starAny :: ps) (some d) ts2)
  | f + 1, .wordB :: ps, prev, ts =>
      (isWordOpt prev != isWordHead ts) && mtchF f ps prev ts
  | f + 1, .nlb c :: ps, prev, ts =>
      (prev != some c) && mtchF f ps prev ts
  | f + 1, .nla w :: ps, prev, ts =>
      !(leadsWith w ts) && mtchF f ps prev ts

def mtch (ps : List RE) (prev : Option Char) (ts : List Char) : Bool :=
  mtchF (ps.length + ts.length + 1) ps prev ts

/-- `re.search`: try a match at every position of the string. -/
def searchFrom (p : List RE) : Option Char → List Char → Bool
  | prev, ts =>
      mtch p prev ts ||
        (match ts with
         | [] => false
         | c :: ts2 => searchFrom p (some c) ts2)

def reSearch (p : List RE) (s : List Char) : Bool :=
  searchFrom p none s

/-- Literal character sequence as a pattern fragment. -/
def lits (s : String) : List RE :=
  s.data.map RE.lit

/-! ### Risk classification (`src/safety.py`) -/

inductive CommandRisk where
  | SAFE
  | MODERATE
  | DESTRUCTIVE
deriving Repr, DecidableEq

/-- `DESTRUCTIVE_PATTERNS` from `src/safety.py`, in source order. -/
def DESTRUCTIVE_PATTERNS : List (List RE) :=
  [ [.wordB] ++ lits "rm" ++ [.wordB],
    [.wordB] ++ lits "mv" ++ [.wordB],
    [.wordB] ++ lits "dd" ++ [.wordB],
    [.wordB] ++ lits "mkfs" ++ [.wordB],
    [.wordB] ++ lits "format" ++ [.wordB],
    [.wordB] ++ lits "chmod" ++ [.plusWS] ++ lits "-r",
    [.wordB] ++ lits "chown" ++ [.plusWS] ++ lits "-r",
    [.wordB] ++ lits "apt" ++ [.plusWS] ++ lits "remove",
    [.wordB] ++ lits "apt" ++ [.plusWS] ++ lits "purge",
    [.wordB] ++ lits "yum" ++ [.plusWS] ++ lits "remove",
    [.wordB] ++ lits "pip" ++ [.plusWS] ++ lits "uninstall",
    [.nlb '2', .lit '>', .starWS] ++ lits "/dev/" ++ [.nla ("null".data)],
    [.wordB] ++ lits "truncate" ++ [.wordB] ]

/-- `MODERATE_PATTERNS` from `src/safety.py`, in source order. -/
def MODERATE_PATTERNS : List (List RE) :=
  [ [.wordB] ++ lits "cp" ++ [.plusWS, .starAny, .plusWS] ++ lits "-f",
    [.wordB] ++ lits "chmod" ++ [.wordB],
    [.wordB] ++ lits "chown" ++ [.wordB],
    [.wordB] ++ lits "kill" ++ [.wordB],
    [.wordB] ++ lits "pkill" ++ [.wordB],
    [.wordB] ++ lits "killall" ++ [.wordB] ]

/-- Some destructive pattern matches the lowercased command.
(Python `str.lower()` is modelled by ASCII `Char.toLower`.) -/
def hitsDestructive (command : String) : Bool :=
  DESTRUCTIVE_PATTERNS.any fun p => reSearch p (command.data.map Char.toLower)

/-- Some moderate pattern matches the lowercased command. -/
def hitsModerate (command : String) : Bool :=
  MODERATE_PATTERNS.any fun p => reSearch p (command.data.map Char.toLower)

/-- `classify_command` from `src/safety.py`.  The `None` argument case is a
Python-only `ValueError` and has no counterpart on `String`; the per-pattern
`re.error` guard never fires since the hard-coded patterns are well formed. -/
def classify_command (command : String) : CommandRisk :=
  if pyStripL command.data = [] then .SAFE
  else if hitsDestructive command then .DESTRUCTIVE
  else if hitsModerate command then .MODERATE
  else .SAFE

/-! ### Confirmation (`get_confirmation` in `src/safety.py`)

The prompt interaction is I/O; it is modelled by the event the prompt
produces: either the line finally returned by `Prompt.ask` (for the
SAFE/MODERATE tiers `rich` re-asks until the line is one of the offered
choices, or substitutes the default on an empty line — `line s` is that
final returned value), or a `KeyboardInterrupt` / `EOFError`. -/

inductive PromptEvent where
  | line : String → PromptEvent
  | interrupt : PromptEvent
  | eof : PromptEvent
deriving Repr, DecidableEq

/-- `get_confirmation` from `src/safety.py` as a function of the risk tier
and the prompt event.  Returns the source's literal outcome strings. -/
def get_confirmation (risk : CommandRisk) (ev : PromptEvent) : String :=
  match risk with
  | .SAFE =>
    match ev with
    | .line s =>
      if pyLower s = "y" || pyLower s = "yes" then "yes"
      else if pyLower s = "r" || pyLower s = "retry" then "retry"
      else "no"
    | .interrupt => "no"
    | .eof => "no"
  | .MODERATE =>
    match ev with
    | .line s =>
      if pyLower s = "y" || pyLower s = "yes" then "yes"
      else if pyLower s = "r" || pyLower s = "retry" then "retry"
      else "no"
    | .interrupt => "no"
    | .eof => "no"
  | .DESTRUCTIVE =>
    match ev with
    | .line s =>
      if s = "EXECUTE" then "yes"
      else if pyLower s = "retry" || pyLower s = "r" then "retry"
      else "no"
    | .interrupt => "no"
    | .eof => "no"

/-! ### `shlex` (Python standard library, POSIX mode)

`src/executor.py` and `src/corrector.py` tokenize commands with
`shlex.split(·, posix=True)` and re-assemble them with `shlex.join`.
The split is the POSIX `shlex` state machine (whitespace `' \t\r\n'`,
single quotes literal, double quotes with `\` escaping only `\` and `"`,
`\` escaping any character outside quotes, no comment handling);
`none` models the `ValueError` raised at end-of-input inside a quote or
right after a backslash. -/

/-- The single-quote, double-quote, backslash characters (written via
code points to keep them out of delimiter syntax). -/
def sqC : Char := Char.ofNat 39

def dqC : Char := Char.ofNat 34

def bsC : Char := Char.ofNat 92

/-- `shlex.whitespace` = `' \t\r\n'`. -/
def isShWs (c : Char) : Bool :=
  c = ' ' || c = '\t' || c = '\r' || c = '\n'

inductive ShState where
  | ws | word | squote | dquote | escW | escD
deriving Repr, DecidableEq

/-- The `shlex` tokenizer state machine.  `acc` is the reversed current
token, `toks` the reversed list of finished tokens. -/
def shlexGo : ShState → List Char → List Char → List (List Char) →
    Option (List (List Char))
  | .ws, _, [], toks => some toks.reverse
  | .ws, _, c :: rest, toks =>
      if isShWs c then shlexGo .ws [] rest toks
      else if c = sqC then shlexGo .squote [] rest toks
      else if c = dqC then shlexGo .dquote [] rest toks
      else if c = bsC then shlexGo .escW [] rest toks
      else shlexGo .word [c] rest toks
  | .word, acc, [], toks => some ((acc.reverse :: toks).reverse)
  | .word, acc, c :: rest, toks =>
      if isShWs c then shlexGo .ws [] rest (acc.reverse :: toks)
      else if c = sqC then shlexGo .squote acc rest toks
      else if c = dqC then shlexGo .dquote acc rest toks
      else if c = bsC then shlexGo .escW acc rest toks
      else shlexGo .word (c :: acc) rest toks
  | .squote, _, [], _ => none
  | .squote, acc, c :: rest, toks =>
      if c = sqC then shlexGo .word acc rest toks
      else shlexGo .squote (c :: acc) rest toks
  | .dquote, _, [], _ => none
  | .dquote, acc, c :: rest, toks =>
      if c = dqC then shlexGo .word acc rest toks
      else if c = bsC then shlexGo .escD acc rest toks
      else shlexGo .dquote (c :: acc) rest toks
  | .escW, _, [], _ => none
  | .escW, acc, c :: rest, toks => shlexGo .word (c :: acc) rest toks
  | .escD, _, [], _ => none
  | .escD, acc, c :: rest, toks =>
      if c = bsC || c = dqC then shlexGo .dquote (c :: acc) rest toks
      else shlexGo .dquote (c :: bsC :: acc) rest toks

/-- `shlex.split(s, posix=True)`; `none` is the `ValueError` case. -/
def shlexSplit (s : String) : Option (List String) :=
  (shlexGo .ws [] s.data []).map (List.map String.mk)

/-- Characters `shlex.quote` treats as safe: ASCII word characters plus
the punctuation at-sign, percent, plus, equals, colon, comma, dot, slash
and dash (the complement of Python's `_find_unsafe` ASCII regex). -/
def shlexSafeChar (c : Char) : Bool :=
  c.isAlphanum || c = '_' || c = '@' || c = '%' || c = '+' || c = '=' ||
  c = ':' || c = ',' || c = '.' || c = '/' || c = '-'

/-- The per-character body of `shlex.quote`'s
`s.replace(squote, squote + dquote + squote + dquote + squote)`:
an embedded single quote becomes quote-close, a double-quoted single
quote, quote-reopen. -/
def sqRepl (c : Char) : List Char :=
  if c = sqC then [sqC, dqC, sqC, dqC, sqC] else [c]

/-- `shlex.quote` on a token: empty tokens become two single quotes, safe
tokens are kept, anything else is wrapped in single quotes with each
embedded single quote replaced by `sqRepl`. -/
def shlexQuote (t : List Char) : List Char :=
  if t.isEmpty then [sqC, sqC]
  else if t.all shlexSafeChar then t
  else sqC :: (t.flatMap sqRepl ++ [sqC])

/-- `' '.join(...)`. -/
def joinSp : List (List Char) → List Char
  | [] => []
  | [t] => t
  | t :: ts => t ++ ' ' :: joinSp ts

/-- `shlex.join(ts)`. -/
def shlexJoin (ts : List (List Char)) : List Char :=
  joinSp (ts.map shlexQuote)

/-! ### Path correction (`src/corrector.py`)

`correct_paths` interacts with the filesystem through
`os.listdir(working_directory)` (modelled as `listdir : Option (List String)`,
`none` for `OSError`), `os.path.exists(os.path.join(wd, part))` (modelled as
`pex : String → Bool`) and `difflib.get_close_matches(part, files, n=1,
cutoff)` (modelled as the oracle `fz : String → List String → Option String`;
its one contract used below is that a returned match is an element of the
candidate list, which `get_close_matches` guarantees).  POSIX separator:
the source's `os.sep not in part and '/' not in part` is a single slash
test. -/

/-- Python `s.startswith(p)`. -/
def pyStartsWith (p s : String) : Bool :=
  leadsWith p.data s.data

/-- `PathCorrector._find_case_insensitive`: the first option equal to the
target up to ASCII case. -/
def find_case_insensitive (target : String) (options : List String) :
    Option String :=
  options.find? fun opt => pyLower opt == pyLower target

/-- The body of the `for part in parts[1:]` loop of
`PathCorrector.correct_paths`: the emitted token together with whether it
set the `modified` flag. -/
def correctToken (fz : String → List String → Option String)
    (entries : List String) (pex : String → Bool) (part : String) :
    String × Bool :=
  if pyStartsWith "-" part then (part, false)
  else if pex part then
    if entries.contains part then (part, false)
    else if part.data.contains '/' = false then
      match find_case_insensitive part entries with
      | some m => (m, true)
      | none => (part, false)
    else (part, false)
  else
    match fz part entries with
    | some m =>
      match find_case_insensitive part entries with
      | some cm => (cm, true)
      | none => (m, true)
    | none =>
      match find_case_insensitive part entries with
      | some cm => (cm, true)
      | none => (part, false)

/-- The tail of `correct_paths` once the command has been tokenized and
the directory listed: correct every argument token, and re-join only if
some token changed. -/
def correctBody (fz : String → List String → Option String)
    (entries : List String) (pex : String → Bool)
    (p0 : String) (rest : List String) (command : String) : String :=
  let results := rest.map (correctToken fz entries pex)
  if results.any Prod.snd then
    ⟨shlexJoin ((p0 :: results.map Prod.fst).map String.data)⟩
  else command

/-- The branching of `correct_paths` on the outcome of tokenization
(`split`, `none` = `ValueError`) and of `os.listdir` (`listdir`, `none` =
`OSError`): either early-return path gives back the original command. -/
def correctDispatch (fz : String → List String → Option String)
    (pex : String → Bool) (split listdir : Option (List String))
    (command : String) : String :=
  match split, listdir with
  | none, _ => command
  | some [], _ => command
  | some (_ :: _), none => command
  | some (p0 :: rest), some entries =>
    correctBody fz entries pex p0 rest command

/-- `PathCorrector.correct_paths`. -/
def correct_paths (fz : String → List String → Option String)
    (listdir : Option (List String)) (pex : String → Bool)
    (command : String) : String :=
  if command.data.contains '|' || command.data.contains '>' ||
      containsSub "&&".data command.data then command
  else correctDispatch fz pex (shlexSplit command) listdir command

/-- A concrete `get_close_matches` oracle for a directory whose sole entry
is `food`: `difflib.get_close_matches("fod", ["food"], n=1, cutoff=0.6)`
returns `["food"]` (ratio 6/7) and no other queried token reaches the
cutoff. -/
def cexFz (p : String) (es : List String) : Option String :=
  if p == "fod" && es == ["food"] then some "food" else none

/-- Existence oracle for the same directory: only `food` exists. -/
def cexPex (p : String) : Bool :=
  p == "food"

/-- A concrete `get_close_matches` oracle for a directory listing
`["FOD", "fod"]`: `difflib.get_close_matches(p, ["FOD", "fod"], n=1,
cutoff=0.6)` returns `["fod"]` both for `p = "fodd"` (ratio 6/7 against
`fod`, only 4/7 against `FOD`) and for `p = "fod"` (ratio 1), and the
oracle is only consulted for those two tokens. -/
def cex2Fz (p : String) (es : List String) : Option String :=
  if es == ["FOD", "fod"] && (p == "fodd" || p == "fod") then some "fod"
  else none

/-- Existence oracle for that directory when `FOD` is a regular file and
`fod` a dangling symlink: `os.listdir` lists both entries, but
`os.path.exists` is `False` for `fod` (it follows the broken link) —
so a listed entry need not exist. -/
def cex2Pex (p : String) : Bool :=
  p == "FOD"

/-! ### Executor (`src/executor.py`)

`ExecutionResult` carries the fields the verified properties mention; the
wall-clock `execution_time` and `timestamp` fields are environment values
with no logical content and are omitted.  The `subprocess.run` call is
modelled by its outcome (`SubOutcome`), the `cd` handler's filesystem and
process-state calls by a `CdEnv` oracle. -/

/-- `c.count(ch)` for a character. -/
def countC (ch : Char) (s : List Char) : Nat :=
  s.count ch

/-- Python `c.replace('||', '')`: left-to-right removal of
non-overlapping double pipes. -/
def replaceDoublePipe : List Char → List Char
  | [] => []
  | [c] => [c]
  | c :: d :: rest =>
    if c = '|' && d = '|' then replaceDoublePipe rest
    else c :: replaceDoublePipe (d :: rest)

/-- The left brace and right brace characters. -/
def lbC : Char := Char.ofNat 123

def rbC : Char := Char.ofNat 125

/-- `CommandExecutor.validate_syntax`: quote/bracket balance counts, the
pipe/redirect position checks, the residual-double-pipe check, and the
`shlex.split` parse check, in source order.  (The per-check
`except Exception` never fires: the checks are total.) -/
def validate_syntax (command : String) : Bool :=
  if pyStripL command.data = [] then false
  else
    let c := pyStripL command.data
    if countC dqC c % 2 ≠ 0 then false
    else if countC sqC c % 2 ≠ 0 then false
    else if countC '(' c ≠ countC ')' c then false
    else if countC '[' c ≠ countC ']' c then false
    else if countC lbC c ≠ countC rbC c then false
    else if leadsWith ['|'] c then false
    else if leadsWith ['|'] c.reverse then false
    else if containsSub "||".data (replaceDoublePipe c) then false
    else if leadsWith ['>'] c then false
    else if leadsWith ['<'] c then false
    else
      match shlexGo .ws [] c [] with
      | none => false
      | some _ => true

structure ExecutionResult where
  command : String
  stdout : String
  stderr : String
  exit_code : Int
deriving Repr, DecidableEq

/-- The outcome of the `subprocess.run` call in `CommandExecutor.execute`:
normal completion, or one of the five caught exception classes (each
carrying the `str(e)` text; `timedOut` carries `e.stdout`). -/
inductive SubOutcome where
  | completed (returncode : Int) (stdout stderr : String)
  | timedOut (partialOut : Option String)
  | permErr (msg : String)
  | notFound (msg : String)
  | osErr (msg : String)
  | unexpected (tyName msg : String)
deriving Repr, DecidableEq

def timeoutMsg (command : String) : String :=
  "Command timed out after 300 seconds\n  • The command may be waiting for input\n  • Try running with a shorter timeout or in the background\n  • Command: "
    ++ command

def permMsg (m command : String) : String :=
  "Permission denied: " ++ m ++
    "\n  • You may need elevated privileges (sudo)\n  • Check file/directory permissions\n  • Command: "
    ++ command

def notFoundMsg (m command : String) : String :=
  "Command or file not found: " ++ m ++
    "\n  • Check if the command is installed\n  • Verify the file path is correct\n  • Command: "
    ++ command

def osErrMsg (m command : String) : String :=
  "Operating system error: " ++ m ++
    "\n  • The system could not execute the command\n  • Check system resources and permissions\n  • Command: "
    ++ command

def unexpectedMsg (ty m command : String) : String :=
  "Unexpected execution error: " ++ m ++
    "\n  • An unknown error occurred\n  • Command: " ++ command ++
    "\n  • Error type: " ++ ty

/-- The `try subprocess.run ... except` block of `CommandExecutor.execute`:
every exception class yields a structured result with exit code `-1`. -/
def runSub (command : String) : SubOutcome → ExecutionResult
  | .completed rc out err => ⟨command, out, err, rc⟩
  | .timedOut po => ⟨command, po.getD "", timeoutMsg command, -1⟩
  | .permErr m => ⟨command, "", permMsg m command, -1⟩
  | .notFound m => ⟨command, "", notFoundMsg m command, -1⟩
  | .osErr m => ⟨command, "", osErrMsg m command, -1⟩
  | .unexpected ty m => ⟨command, "", unexpectedMsg ty m command, -1⟩

/-- `'/'.join`. -/
def joinSlash : List (List Char) → List Char
  | [] => []
  | [t] => t
  | t :: ts => t ++ '/' :: joinSlash ts

/-- `s.split('/')`. -/
def splitSlashGo : List Char → List Char → List (List Char)
  | acc, [] => [acc.reverse]
  | acc, c :: rest =>
    if c = '/' then acc.reverse :: splitSlashGo [] rest
    else splitSlashGo (c :: acc) rest

/-- `posixpath.normpath`: drop empty and `.` components, resolve `..`
against the stack, preserve one or exactly two leading slashes. -/
def normPath (p : String) : String :=
  if p.data = [] then "."
  else
    let initSlash : Nat :=
      if leadsWith "//".data p.data && !(leadsWith "///".data p.data) then 2
      else if leadsWith "/".data p.data then 1 else 0
    let comps := splitSlashGo [] p.data
    let newComps := comps.foldl
      (fun acc comp =>
        if comp = [] || comp = ['.'] then acc
        else if comp ≠ "..".data || (initSlash = 0 && acc = []) ||
            acc.getLast? = some "..".data then acc ++ [comp]
        else if acc ≠ [] then acc.dropLast
        else acc) []
    let path := List.replicate initSlash '/' ++ joinSlash newComps
    if path = [] then "." else ⟨path⟩

/-- `posixpath.join` of a directory and one further path. -/
def pathJoin (a b : String) : String :=
  if leadsWith ['/'] b.data then b
  else if a.data = [] then b
  else if a.data.getLast? = some '/' then a ++ b
  else a ++ "/" ++ b

/-- `posixpath.basename`: everything after the last slash. -/
def baseName (s : String) : String :=
  ⟨(s.data.reverse.takeWhile (· ≠ '/')).reverse⟩

/-- `posixpath.dirname`: everything up to the last slash, with trailing
slashes stripped unless the head is all slashes. -/
def dirName (s : String) : String :=
  let h := (s.data.reverse.dropWhile (· ≠ '/')).reverse
  if h ≠ [] && !(h.all (· = '/')) then ⟨(h.reverse.dropWhile (· = '/')).reverse⟩
  else ⟨h⟩

/-- The environment-dependent calls of `CommandExecutor._execute_cd`:
`os.path.expanduser`, `os.path.expandvars`, `os.path.isdir`, `os.listdir`
(`none` = `OSError`), and `os.chdir` followed by `os.getcwd()`
(`.error msg` = the raised exception's text). -/
structure CdEnv where
  expandUser : String → String
  expandVars : String → String
  isdir : String → Bool
  listdir : String → Option (List String)
  chdir : String → Except String String

/-- `CommandExecutor._execute_cd`: returns the result together with the
executor's working directory after the call (this is the only path that
may change it).  The tokenization-failure arm stands for the outer
`except Exception` branch (unreachable from `execute`, which has already
validated the command against `shlex`). -/
def execute_cd (wd : String) (command : String) (env : CdEnv) :
    ExecutionResult × String :=
  match shlexSplit command with
  | none => (⟨command, "", "cd: No closing quotation", 1⟩, wd)
  | some parts =>
    let target0 : String :=
      match parts with
      | [] => env.expandUser "~"
      | [_] => env.expandUser "~"
      | _ :: t :: _ => env.expandVars (env.expandUser t)
    let target1 := if leadsWith ['/'] target0.data then target0 else pathJoin wd target0
    let target2 := normPath target1
    let target3 :=
      if env.isdir target2 then target2
      else
        let parent := dirName target2
        let base := baseName target2
        if env.isdir parent then
          match env.listdir parent with
          | none => target2
          | some es =>
            match es.find? (fun e =>
                pyLower e == pyLower base && env.isdir (pathJoin parent e)) with
            | some e => pathJoin parent e
            | none => target2
        else target2
    if env.isdir target3 then
      match env.chdir target3 with
      | .ok newWd => (⟨command, "Changed directory to: " ++ newWd, "", 0⟩, newWd)
      | .error m => (⟨command, "", "cd: " ++ m, 1⟩, wd)
    else
      (⟨command, "", "cd: no such file or directory: " ++ target3, 1⟩, wd)

/-- `CommandExecutor.execute`: raises (`.error`) exactly on empty input or
failed syntax validation; takes the `cd` special-case path exactly when
the stripped command starts with `"cd "`; otherwise runs the subprocess
and leaves the working directory alone. -/
def execute (wd : String) (command : String) (sub : SubOutcome) (env : CdEnv) :
    Except String (ExecutionResult × String) :=
  if pyStripL command.data = [] then
    .error "Command cannot be empty"
  else if validate_syntax command = false then
    .error ("Invalid command syntax: " ++ command ++
      "\n  • Check for unmatched quotes or brackets\n  • Verify pipe and redirection usage")
  else if pyStartsWith "cd " (pyStrip command) then
    .ok (execute_cd wd command env)
  else
    .ok (runSub command sub, wd)

/-- Substring containment at `String` level. -/
def strContains (sub s : String) : Bool :=
  containsSub sub.data s.data

/-! ### Rituals (`src/rituals.py`)

`RitualStep` carries the fields the verified property mentions (the
wall-clock `execution_time` is omitted as above).  The `executor_func`
callback is modelled as `f : String → Except String (Int × String × String)`
returning `(exit_code, stdout, stderr)`, with `.error msg` for a call that
raises.  The transient `RUNNING` status and the progress callback have no
effect on the final state and do not appear in it. -/

inductive StepStatus where
  | PENDING | RUNNING | SUCCESS | FAILED | SKIPPED
deriving Repr, DecidableEq

structure RitualStep where
  order : Nat
  command : String
  status : StepStatus
  output : Option String
  error : Option String
deriving Repr, DecidableEq

/-- The observable outcome of `RitualManager.execute_ritual`: the final
step states, the `execution.success` flag, and the trace of commands that
were actually passed to `executor_func`, in call order. -/
structure RitualRun where
  steps : List RitualStep
  success : Bool
  invoked : List String
deriving Repr, DecidableEq

/-- The step loop of `RitualManager.execute_ritual`: run steps in list
order; a non-zero exit code or a raise marks the step `FAILED` and stops,
leaving the remaining steps untouched; otherwise mark `SUCCESS` and
continue.  `success` is set only when the loop completes. -/
def execute_ritual_steps
    (f : String → Except String (Int × String × String)) :
    List RitualStep → RitualRun
  | [] => ⟨[], true, []⟩
  | s :: rest =>
    match f s.command with
    | .ok (code, out, err) =>
      if code = 0 then
        let r := execute_ritual_steps f rest
        ⟨{ s with status := .SUCCESS, output := some out, error := some err }
            :: r.steps,
          r.success, s.command :: r.invoked⟩
      else
        ⟨{ s with status := .FAILED, output := some out, error := some err }
            :: rest,
          false, [s.command]⟩
    | .error msg =>
      ⟨{ s with status := .FAILED, error := some msg } :: rest,
        false, [s.command]⟩

/-- Did this step's executor call return exit code `0`? -/
def stepOk (f : String → Except String (Int × String × String))
    (cmd : String) : Bool :=
  match f cmd with
  | .ok (code, _, _) => code == 0
  | .error _ => false

/-- Number of leading steps whose executor call succeeds with exit `0`. -/
def okPrefixLen (f : String → Except String (Int × String × String))
    (steps : List RitualStep) : Nat :=
  (steps.takeWhile fun s => stepOk f s.command).length

/-- A demonstration executor: `ok` exits 0, anything else exits 1. -/
def demoF (c : String) : Except String (Int × String × String) :=
  if c = "ok" then .ok (0, "", "") else .ok (1, "", "")

/-- Three pending steps; the second fails under `demoF`. -/
def demoSteps : List RitualStep :=
  [⟨0, "ok", .PENDING, none, none⟩,
   ⟨1, "bad", .PENDING, none, none⟩,
   ⟨2, "never", .PENDING, none, none⟩]

/-- A demonstration `CdEnv` with an empty filesystem. -/
def demoEnv : CdEnv :=
  ⟨fun s => s, fun s => s, fun _ => false, fun _ => none,
   fun _ => .error "chdir"⟩

/-! ### History (`src/history.py`)

The `command_history` table is modelled as a list of rows.  Timestamps
are `datetime.now().isoformat()` strings compared lexicographically by
SQLite (`MAX(timestamp)`, `ORDER BY`), which for ISO strings is
chronological order — modelled as `Nat`.  The REAL `execution_time` is
modelled as `Int` (only its sign is ever inspected). -/

structure HistoryRow where
  id : Nat
  natural_language : String
  shell_command : String
  working_directory : String
  exit_code : Int
  timestamp : Nat
  execution_time : Int
deriving Repr, DecidableEq

/-- SQLite `LIKE` with the default `case_sensitive_like = OFF` pragma:
ASCII case-insensitive character match, `%` matches any sequence, `_` any
single character.  Structured on fuel as in `mtchF`: each step strictly
decreases `ps.length + t.length`, so the bound supplied by `likeM` is
never exhausted. -/
def likeF : Nat → List Char → List Char → Bool
  | 0, _, _ => false
  | _ + 1, [], t => t.isEmpty
  | f + 1, c :: ps, t =>
    if c = '%' then
      likeF f ps t ||
        (match t with
         | [] => false
         | _ :: ts => likeF f (c :: ps) ts)
    else if c = '_' then
      match t with
      | [] => false
      | _ :: ts => likeF f ps ts
    else
      match t with
      | [] => false
      | d :: ts => Char.toLower c = Char.toLower d && likeF f ps ts

def likeM (ps t : List Char) : Bool :=
  likeF (ps.length + t.length + 1) ps t

/-- The pattern `f"%{natural_language}%"` bound to the `LIKE`. -/
def likePattern (natural_language : String) : List Char :=
  '%' :: (natural_language.data ++ ['%'])

/-- The `WHERE natural_language LIKE ?` filter. -/
def likeFiltered (rows : List HistoryRow) (natural_language : String) :
    List HistoryRow :=
  rows.filter fun r => likeM (likePattern natural_language) r.natural_language.data

/-- The rows of one `GROUP BY shell_command` group. -/
def groupFor (filtered : List HistoryRow) (sc : String) : List HistoryRow :=
  filtered.filter fun r => r.shell_command == sc

/-- `MAX(timestamp)` over a group. -/
def maxTs (g : List HistoryRow) : Nat :=
  g.foldr (fun r m => max r.timestamp m) 0

/-- The representative row SQLite yields for a group: with a
`MAX(timestamp)` aggregate in the select list, bare columns come from a
row attaining that maximum. -/
def pickRep (g : List HistoryRow) : Option HistoryRow :=
  g.find? fun r => r.timestamp == maxTs g

/-- `ORDER BY frequency DESC, last_used DESC` as a relation on rows,
with both sort keys recomputed from the filtered set: `a` may precede `b`
iff `a`'s group is strictly more frequent, or equally frequent and at
least as recently used. -/
def sugLe (filtered : List HistoryRow) (a b : HistoryRow) : Prop :=
  (groupFor filtered b.shell_command).length
      < (groupFor filtered a.shell_command).length ∨
    ((groupFor filtered b.shell_command).length
        = (groupFor filtered a.shell_command).length ∧
      maxTs (groupFor filtered b.shell_command)
        ≤ maxTs (groupFor filtered a.shell_command))

instance (filtered : List HistoryRow) : DecidableRel (sugLe filtered) :=
  fun a b => by unfold sugLe; infer_instance

/-- `HistoryManager.get_suggestions`: validation, `LIKE` filter, grouping
by `shell_command` (one representative row per group), ordering by
frequency then recency, and the `LIMIT`. -/
def get_suggestions (rows : List HistoryRow) (natural_language : String)
    (limit : Int) : Except String (List HistoryRow) :=
  if pyStripL natural_language.data = [] then
    .error "natural_language cannot be empty"
  else if limit ≤ 0 then
    .error "limit must be positive"
  else
    let filtered := likeFiltered rows natural_language
    let scs := (filtered.map HistoryRow.shell_command).dedup
    let entries := scs.filterMap fun sc => pickRep (groupFor filtered sc)
    .ok ((List.insertionSort (sugLe filtered) entries).take limit.toNat)

/-- `HistoryManager.save_command`: the three validation checks run before
any connection is opened; on success exactly one row is inserted.  The
returned pair is the table state afterwards and the raised error, if any
(`none` = no raise).  `newId` and `timestamp` stand for the autoincrement
key and `datetime.now().isoformat()`. -/
def save_command (natural_language shell_command : String) (exit_code : Int)
    (execution_time : Int) (working_directory : String)
    (newId : Nat) (timestamp : Nat) (st : List HistoryRow) :
    List HistoryRow × Option String :=
  if pyStripL natural_language.data = [] then
    (st, some "natural_language cannot be empty")
  else if pyStripL shell_command.data = [] then
    (st, some "shell_command cannot be empty")
  else if execution_time < 0 then
    (st, some "execution_time cannot be negative")
  else
    (st ++ [⟨newId, natural_language, shell_command, working_directory,
      exit_code, timestamp, execution_time⟩], none)

/-- One stored row whose `natural_language` is `"List Files"`. -/
def demoRows : List HistoryRow :=
  [⟨1, "List Files", "ls", "/", 0, 5, 1⟩]

end Haunted

namespace Haunted

/-! ## Theorems -/

/-! ### `shlex.split` recovers the tokens assembled by `shlex.join` -/

theorem mk_data (s : String) : String.mk s.data = s := rfl

theorem isShWs_of_safe {c : Char} (h : shlexSafeChar c = true) :
    isShWs c = false := by
  cases hw : isShWs c
  · rfl
  · have h2 : c = ' ' ∨ c = '\t' ∨ c = '\r' ∨ c = '\n' := by
      simpa [isShWs, or_assoc] using hw
    rcases h2 with h2 | h2 | h2 | h2 <;> subst h2 <;> exact absurd h (by decide)

theorem safe_ne_sq {c : Char} (h : shlexSafeChar c = true) : c ≠ sqC := by
  rintro rfl; exact absurd h (by decide)

theorem safe_ne_dq {c : Char} (h : shlexSafeChar c = true) : c ≠ dqC := by
  rintro rfl; exact absurd h (by decide)

theorem safe_ne_bs {c : Char} (h : shlexSafeChar c = true) : c ≠ bsC := by
  rintro rfl; exact absurd h (by decide)

theorem shws_sq : isShWs sqC = false := by decide

theorem shws_dq : isShWs dqC = false := by decide

theorem dq_ne_sq : dqC ≠ sqC := by decide

theorem sq_ne_dq : sqC ≠ dqC := by decide

theorem sq_ne_bs : sqC ≠ bsC := by decide

/-- Consuming a run of `shlex.quote`-safe characters in the `word` state
just accumulates them. -/
theorem shlexGo_word_safe :
    ∀ (t : List Char), t.all shlexSafeChar = true →
    ∀ acc rest toks,
      shlexGo .word acc (t ++ rest) toks
        = shlexGo .word (t.reverse ++ acc) rest toks := by
  intro t
  induction t with
  | nil => intro _ acc rest toks; simp
  | cons c t ih =>
    intro hsafe acc rest toks
    rw [List.all_cons, Bool.and_eq_true] at hsafe
    obtain ⟨hc, ht⟩ := hsafe
    have h1 := isShWs_of_safe hc
    have h2 := safe_ne_sq hc
    have h3 := safe_ne_dq hc
    have h4 := safe_ne_bs hc
    show shlexGo .word acc (c :: (t ++ rest)) toks = _
    simp only [shlexGo, h1, h2, h3, h4, Bool.false_eq_true, if_false]
    rw [ih ht (c :: acc) rest toks]
    simp [List.append_assoc]

/-- Consuming the quoted body produced by `sqRepl` in the `squote` state,
up to the closing quote, accumulates exactly the original token. -/
theorem shlexGo_squote_body :
    ∀ (t : List Char) acc rest toks,
      shlexGo .squote acc (t.flatMap sqRepl ++ (sqC :: rest)) toks
        = shlexGo .word (t.reverse ++ acc) rest toks := by
  intro t
  induction t with
  | nil => intro acc rest toks; simp [shlexGo]
  | cons c t ih =>
    intro acc rest toks
    by_cases hc : c = sqC
    · subst hc
      simp only [List.flatMap_cons, sqRepl, if_pos rfl, List.append_assoc,
        List.cons_append]
      simp only [shlexGo, shws_sq, shws_dq, dq_ne_sq, sq_ne_dq, sq_ne_bs,
        Bool.false_eq_true, if_false, if_true]
      simp only [List.nil_append, List.append_eq]
      rw [ih (sqC :: acc) rest toks]
      simp [List.append_assoc]
    · simp only [List.flatMap_cons, sqRepl, if_neg hc, List.cons_append,
        List.singleton_append]
      simp only [shlexGo, hc, if_false]
      simp only [List.nil_append, List.append_eq]
      rw [ih (c :: acc) rest toks]
      simp [List.append_assoc]

/-- Starting in the whitespace state, consuming `shlex.quote t` leaves the
machine in the `word` state having accumulated exactly `t`. -/
theorem shlexGo_ws_quote :
    ∀ (t : List Char) rest toks,
      shlexGo .ws [] (shlexQuote t ++ rest) toks
        = shlexGo .word t.reverse rest toks := by
  intro t rest toks
  by_cases h0 : t.isEmpty
  · have ht : t = [] := by simpa using h0
    subst ht
    simp [shlexQuote, shlexGo, shws_sq]
  · by_cases h1 : t.all shlexSafeChar
    · obtain ⟨c, t', rfl⟩ : ∃ c t', t = c :: t' := by
        cases t with
        | nil => simp at h0
        | cons c t' => exact ⟨c, t', rfl⟩
      rw [List.all_cons, Bool.and_eq_true] at h1
      obtain ⟨hc, ht'⟩ := h1
      have e1 : shlexQuote (c :: t') = c :: t' := by
        rw [shlexQuote, if_neg (by simp), if_pos (by simp [hc, ht'])]
      rw [e1]
      have h1 := isShWs_of_safe hc
      have h2 := safe_ne_sq hc
      have h3 := safe_ne_dq hc
      have h4 := safe_ne_bs hc
      show shlexGo .ws [] (c :: (t' ++ rest)) toks = _
      simp only [shlexGo, h1, h2, h3, h4, Bool.false_eq_true, if_false]
      rw [shlexGo_word_safe t' ht' [c] rest toks]
      simp
    · have e1 : shlexQuote t = sqC :: (t.flatMap sqRepl ++ [sqC]) := by
        rw [shlexQuote, if_neg h0, if_neg h1]
      rw [e1]
      show shlexGo .ws [] (sqC :: ((t.flatMap sqRepl ++ [sqC]) ++ rest)) toks = _
      simp only [shlexGo, shws_sq, Bool.false_eq_true, if_false, if_true]
      rw [List.append_assoc, List.singleton_append]
      rw [shlexGo_squote_body t [] rest toks]
      simp

/-- Splitting the joined token list recovers it, whatever tokens are
already finished. -/
theorem shlexGo_joinSp :
    ∀ (ts : List (List Char)), ts ≠ [] → ∀ toks,
      shlexGo .ws [] (shlexJoin ts) toks = some (toks.reverse ++ ts) := by
  intro ts
  induction ts with
  | nil => intro h; exact absurd rfl h
  | cons t ts ih =>
    intro _ toks
    cases ts with
    | nil =>
      have hj : shlexJoin [t] = shlexQuote t := rfl
      rw [hj]
      have h := shlexGo_ws_quote t [] toks
      rw [List.append_nil] at h
      rw [h]
      simp [shlexGo]
    | cons t2 ts2 =>
      have hj : shlexJoin (t :: t2 :: ts2)
          = shlexQuote t ++ (' ' :: shlexJoin (t2 :: ts2)) := rfl
      rw [hj, shlexGo_ws_quote t (' ' :: shlexJoin (t2 :: ts2)) toks]
      simp only [shlexGo, isShWs, if_true, Bool.or_eq_true, decide_eq_true_eq]
      rw [if_pos (by norm_num)]
      rw [List.reverse_reverse]
      rw [ih (by simp) (t :: toks)]
      simp

/-- `shlex.split (shlex.join ts) = ts`. -/
theorem shlexSplit_join (ts : List String) :
    shlexSplit ⟨shlexJoin (ts.map String.data)⟩ = some ts := by
  cases ts with
  | nil => rfl
  | cons t ts =>
    show (shlexGo .ws [] (shlexJoin ((t :: ts).map String.data)) []).map
        (List.map String.mk) = some (t :: ts)
    rw [shlexGo_joinSp ((t :: ts).map String.data) (by simp) []]
    show some ((((t :: ts).map String.data)).map String.mk) = some (t :: ts)
    have hmm : ∀ l : List String, (l.map String.data).map String.mk = l := by
      intro l
      induction l with
      | nil => rfl
      | cons x xs ihx =>
        simp only [List.map_cons, ihx, mk_data]
    rw [hmm]

/-! ### Path correction: per-token fixpoint lemmas -/

theorem find_case_insensitive_mem {target m : String} {options : List String}
    (h : find_case_insensitive target options = some m) : m ∈ options :=
  List.mem_of_find?_eq_some h

/-- A token that is itself a directory entry is left alone (assuming the
filesystem is consistent: listed entries exist). -/
theorem correctToken_of_mem (fz : String → List String → Option String)
    (entries : List String) (pex : String → Bool)
    (hcons : ∀ e ∈ entries, pex e = true)
    {m : String} (hm : m ∈ entries) :
    correctToken fz entries pex m = (m, false) := by
  rw [correctToken]
  by_cases h1 : pyStartsWith "-" m = true
  · rw [if_pos h1]
  · rw [if_neg h1, if_pos (hcons m hm),
      if_pos (List.elem_eq_true_of_mem hm)]

/-- The token emitted by one pass of the correction loop is left alone by
a second pass. -/
theorem correctToken_fix (fz : String → List String → Option String)
    (entries : List String) (pex : String → Bool)
    (hfz : ∀ p m, fz p entries = some m → m ∈ entries)
    (hcons : ∀ e ∈ entries, pex e = true) (part : String) :
    correctToken fz entries pex (correctToken fz entries pex part).1
      = ((correctToken fz entries pex part).1, false) := by
  by_cases h1 : pyStartsWith "-" part = true
  · have e : correctToken fz entries pex part = (part, false) := by
      rw [correctToken, if_pos h1]
    rw [e]
    exact e
  · by_cases h2 : pex part = true
    · by_cases h3 : List.contains entries part = true
      · have e : correctToken fz entries pex part = (part, false) := by
          rw [correctToken, if_neg h1, if_pos h2, if_pos h3]
        rw [e]
        exact e
      · by_cases h4 : part.data.contains '/' = false
        · cases hf : find_case_insensitive part entries with
          | some m =>
            have e : correctToken fz entries pex part = (m, true) := by
              simp only [correctToken, if_neg h1, if_pos h2, if_neg h3,
                if_pos h4, hf]
            rw [e]
            exact correctToken_of_mem fz entries pex hcons
              (find_case_insensitive_mem hf)
          | none =>
            have e : correctToken fz entries pex part = (part, false) := by
              simp only [correctToken, if_neg h1, if_pos h2, if_neg h3,
                if_pos h4, hf]
            rw [e]
            exact e
        · have e : correctToken fz entries pex part = (part, false) := by
            rw [correctToken, if_neg h1, if_pos h2, if_neg h3, if_neg h4]
          rw [e]
          exact e
    · cases hf : fz part entries with
      | some m =>
        cases hc : find_case_insensitive part entries with
        | some cm =>
          have e : correctToken fz entries pex part = (cm, true) := by
            simp only [correctToken, if_neg h1, if_neg h2, hf, hc]
          rw [e]
          exact correctToken_of_mem fz entries pex hcons
            (find_case_insensitive_mem hc)
        | none =>
          have e : correctToken fz entries pex part = (m, true) := by
            simp only [correctToken, if_neg h1, if_neg h2, hf, hc]
          rw [e]
          exact correctToken_of_mem fz entries pex hcons (hfz part m hf)
      | none =>
        cases hc : find_case_insensitive part entries with
        | some cm =>
          have e : correctToken fz entries pex part = (cm, true) := by
            simp only [correctToken, if_neg h1, if_neg h2, hf, hc]
          rw [e]
          exact correctToken_of_mem fz entries pex hcons
            (find_case_insensitive_mem hc)
        | none =>
          have e : correctToken fz entries pex part = (part, false) := by
            simp only [correctToken, if_neg h1, if_neg h2, hf, hc]
          rw [e]
          exact e

/-- Re-running correction on a command assembled from tokens it leaves
alone returns that command unchanged. -/
theorem correct_paths_fix_join (fz : String → List String → Option String)
    (entries : List String) (pex : String → Bool)
    (p0 : String) (ts : List String)
    (hts : ∀ t ∈ ts, correctToken fz entries pex t = (t, false)) :
    correct_paths fz (some entries) pex
        ⟨shlexJoin ((p0 :: ts).map String.data)⟩
      = ⟨shlexJoin ((p0 :: ts).map String.data)⟩ := by
  rw [correct_paths]
  by_cases hp : ((String.mk (shlexJoin ((p0 :: ts).map String.data))).data.contains '|' ||
      (String.mk (shlexJoin ((p0 :: ts).map String.data))).data.contains '>' ||
      containsSub "&&".data
        (String.mk (shlexJoin ((p0 :: ts).map String.data))).data) = true
  · rw [if_pos hp]
  · rw [if_neg hp]
    rw [shlexSplit_join (p0 :: ts)]
    simp only [correctDispatch, correctBody]
    have hres : (ts.map (correctToken fz entries pex)).any Prod.snd = false := by
      rw [List.any_eq_false]
      intro x hx
      rcases List.mem_map.mp hx with ⟨t, ht, rfl⟩
      rw [hts t ht]
      simp
    rw [if_neg (by rw [hres]; simp)]

/-- C6 counterexample: in a directory listing `FOD` (a regular file) and
`fod` (a dangling symlink, listed by `os.listdir` but failing
`os.path.exists`), correction is not idempotent: `cat fodd` is corrected
to `cat fod` (fuzzy match, no case-insensitive hit), but correcting
`cat fod` again rewrites it to `cat FOD` — `fod` fails the existence
check, the fuzzy path is taken, and `_find_case_insensitive` prefers the
first case-insensitive match `FOD`. -/
theorem C6_counterexample :
    correct_paths cex2Fz (some ["FOD", "fod"]) cex2Pex "cat fodd"
        = "cat fod" ∧
    correct_paths cex2Fz (some ["FOD", "fod"]) cex2Pex
        (correct_paths cex2Fz (some ["FOD", "fod"]) cex2Pex "cat fodd")
      ≠ correct_paths cex2Fz (some ["FOD", "fod"]) cex2Pex "cat fodd" :=
  ⟨by rfl, by decide⟩

/-- C6 (amended): path correction is idempotent for a directory model in
which every listed entry passes the existence check and the fuzzy
matcher only proposes listed entries (the latter is always true of
`difflib.get_close_matches`; the former fails exactly for entries such
as dangling symlinks, where the source is not idempotent — see the
counterexample); a failed directory listing yields a no-op, hence is
idempotent too; and a pass in which no token changes returns the
original string untouched. -/
theorem C6_correct_paths_idempotent :
    (∀ (fz : String → List String → Option String) (entries : List String)
        (pex : String → Bool) (cmd : String),
      (∀ p m, fz p entries = some m → m ∈ entries) →
      (∀ e ∈ entries, pex e = true) →
      correct_paths fz (some entries) pex
          (correct_paths fz (some entries) pex cmd)
        = correct_paths fz (some entries) pex cmd) ∧
    (∀ fz pex (cmd : String), correct_paths fz none pex cmd = cmd) ∧
    (∀ (fz : String → List String → Option String) (entries : List String)
        (pex : String → Bool) (cmd p0 : String) (ts : List String),
      shlexSplit cmd = some (p0 :: ts) →
      (∀ t ∈ ts, (correctToken fz entries pex t).2 = false) →
      correct_paths fz (some entries) pex cmd = cmd) := by
  refine ⟨?_, ?_, ?_⟩
  · intro fz entries pex cmd hfz hcons
    by_cases hp : (cmd.data.contains '|' || cmd.data.contains '>' ||
        containsSub "&&".data cmd.data) = true
    · have e : correct_paths fz (some entries) pex cmd = cmd := by
        rw [correct_paths, if_pos hp]
      rw [e]
      exact e
    · rcases hsp : shlexSplit cmd with _ | ⟨_ | ⟨p0, ts⟩⟩
      · have e : correct_paths fz (some entries) pex cmd = cmd := by
          rw [correct_paths, if_neg hp, hsp]
          rfl
        rw [e]
        exact e
      · have e : correct_paths fz (some entries) pex cmd = cmd := by
          rw [correct_paths, if_neg hp, hsp]
          rfl
        rw [e]
        exact e
      · by_cases hm : (ts.map (correctToken fz entries pex)).any Prod.snd = true
        · have e : correct_paths fz (some entries) pex cmd
              = ⟨shlexJoin ((p0 ::
                  (ts.map (correctToken fz entries pex)).map Prod.fst).map
                    String.data)⟩ := by
            rw [correct_paths, if_neg hp, hsp]
            simp only [correctDispatch, correctBody]
            rw [if_pos hm]
          rw [e]
          apply correct_paths_fix_join fz entries pex
          intro t ht
          rcases List.mem_map.mp ht with ⟨pr, hpr, rfl⟩
          rcases List.mem_map.mp hpr with ⟨orig, _, rfl⟩
          exact correctToken_fix fz entries pex hfz hcons orig
        · have e : correct_paths fz (some entries) pex cmd = cmd := by
            rw [correct_paths, if_neg hp, hsp]
            simp only [correctDispatch, correctBody]
            rw [if_neg hm]
          rw [e]
          exact e
  · intro fz pex cmd
    by_cases hp : (cmd.data.contains '|' || cmd.data.contains '>' ||
        containsSub "&&".data cmd.data) = true
    · rw [correct_paths, if_pos hp]
    · rcases hsp : shlexSplit cmd with _ | ⟨_ | ⟨p0, ts⟩⟩ <;>
        rw [correct_paths, if_neg hp, hsp] <;> rfl
  · intro fz entries pex cmd p0 ts hsp hts
    by_cases hp : (cmd.data.contains '|' || cmd.data.contains '>' ||
        containsSub "&&".data cmd.data) = true
    · rw [correct_paths, if_pos hp]
    · rw [correct_paths, if_neg hp, hsp]
      simp only [correctDispatch, correctBody]
      have hres : (ts.map (correctToken fz entries pex)).any Prod.snd = false := by
        rw [List.any_eq_false]
        intro x hx
        rcases List.mem_map.mp hx with ⟨t, ht, rfl⟩
        simpa using hts t ht
      rw [if_neg (by rw [hres]; simp)]

/-- Witness for C6 at a concrete directory model and command. -/
theorem C6_correct_paths_idempotent_witness :
    correct_paths cexFz (some ["food"]) cexPex
        (correct_paths cexFz (some ["food"]) cexPex "cat fod")
      = correct_paths cexFz (some ["food"]) cexPex "cat fod" :=
  C6_correct_paths_idempotent.1 cexFz ["food"] cexPex "cat fod"
    (by
      intro p m h
      unfold cexFz at h
      split at h
      · exact (Option.some.inj h) ▸ List.mem_cons_self _ _
      · exact absurd h (by simp))
    (by decide)

/-- C7 counterexample: `cat < fod` contains the input-redirect operator
`<`, yet correction does not skip it — against a directory containing
only `food` (with `difflib` returning `food` for `fod` and nothing for
the other tokens, exactly as `get_close_matches` does), the command is
rewritten. -/
theorem C7_counterexample :
    containsSub "<".data "cat < fod".data = true ∧
    correct_paths cexFz (some ["food"]) cexPex "cat < fod" ≠ "cat < fod" := by
  exact ⟨by decide, by decide⟩

/-- C7 (amended): correction is skipped — the command returned unchanged —
whenever the command contains `|`, `>` or `&&` (pipes, output redirects
and and-chains; input redirects `<` and `;` chains are not guarded), and
whenever `shlex` tokenization fails. -/
theorem C7_skip_compound :
    (∀ fz listdir pex (cmd : String),
      (cmd.data.contains '|' || cmd.data.contains '>' ||
        containsSub "&&".data cmd.data) = true →
      correct_paths fz listdir pex cmd = cmd) ∧
    (∀ fz listdir pex (cmd : String),
      shlexSplit cmd = none →
      correct_paths fz listdir pex cmd = cmd) := by
  constructor
  · intro fz ld pex cmd h
    rw [correct_paths, if_pos h]
  · intro fz ld pex cmd h
    by_cases hp : (cmd.data.contains '|' || cmd.data.contains '>' ||
        containsSub "&&".data cmd.data) = true
    · rw [correct_paths, if_pos hp]
    · rw [correct_paths, if_neg hp, h]
      rfl

/-- Witness for C7's amended statement at concrete inputs. -/
theorem C7_skip_compound_witness :
    correct_paths cexFz (some ["food"]) cexPex "cat fod | wc" = "cat fod | wc" ∧
    correct_paths cexFz (some ["food"]) cexPex "cat 'fod" = "cat 'fod" :=
  ⟨C7_skip_compound.1 cexFz (some ["food"]) cexPex "cat fod | wc" (by decide),
   C7_skip_compound.2 cexFz (some ["food"]) cexPex "cat 'fod" (by decide)⟩

/-- C1: `classify_command` checks the DESTRUCTIVE pattern list first, then
the MODERATE list, on the lowercased command, with the first matching tier
winning; no pattern matching yields SAFE; empty or whitespace-only input is
SAFE; and `classify("rm -rf /tmp/x") = DESTRUCTIVE`,
`classify("chmod 755 a.txt") = MODERATE`. -/
theorem C1_classify_tiers :
    (∀ c : String, pyStrip c = "" → classify_command c = CommandRisk.SAFE) ∧
    (∀ c : String, pyStrip c ≠ "" → hitsDestructive c = true →
      classify_command c = CommandRisk.DESTRUCTIVE) ∧
    (∀ c : String, pyStrip c ≠ "" → hitsDestructive c = false →
      hitsModerate c = true → classify_command c = CommandRisk.MODERATE) ∧
    (∀ c : String, hitsDestructive c = false → hitsModerate c = false →
      classify_command c = CommandRisk.SAFE) ∧
    classify_command "rm -rf /tmp/x" = CommandRisk.DESTRUCTIVE ∧
    classify_command "chmod 755 a.txt" = CommandRisk.MODERATE := by
  refine ⟨?_, ?_, ?_, ?_, by decide, by decide⟩
  · intro c h
    have h2 : pyStripL c.data = [] := by
      simpa [pyStrip, String.ext_iff] using h
    simp [classify_command, h2]
  · intro c h hd
    have h2 : ¬ pyStripL c.data = [] := by
      simpa [pyStrip, String.ext_iff] using h
    simp [classify_command, h2, hd]
  · intro c h hd hm
    have h2 : ¬ pyStripL c.data = [] := by
      simpa [pyStrip, String.ext_iff] using h
    simp [classify_command, h2, hd, hm]
  · intro c hd hm
    simp [classify_command, hd, hm]

/-- Witness for C1 at concrete inputs. -/
theorem C1_classify_tiers_witness :
    classify_command "   " = CommandRisk.SAFE ∧
    classify_command "rm x" = CommandRisk.DESTRUCTIVE ∧
    classify_command "chmod a" = CommandRisk.MODERATE ∧
    classify_command "echo hi" = CommandRisk.SAFE :=
  ⟨C1_classify_tiers.1 "   " (by decide),
   C1_classify_tiers.2.1 "rm x" (by decide) (by decide),
   C1_classify_tiers.2.2.1 "chmod a" (by decide) (by decide) (by decide),
   C1_classify_tiers.2.2.2.1 "echo hi" (by decide) (by decide)⟩

/-- C2: a command matching no DESTRUCTIVE and no MODERATE pattern is SAFE,
and `find . -name '*.py' 2>/dev/null` is SAFE even though it contains the
substring `/dev/` (the `(?<!2)` lookbehind carves out `2>/dev/null`). -/
theorem C2_safe_default :
    (∀ c : String, hitsDestructive c = false → hitsModerate c = false →
      classify_command c = CommandRisk.SAFE) ∧
    classify_command "find . -name '*.py' 2>/dev/null" = CommandRisk.SAFE ∧
    containsSub "/dev/".data "find . -name '*.py' 2>/dev/null".data = true := by
  refine ⟨?_, by decide, by decide⟩
  intro c hd hm
  simp [classify_command, hd, hm]

/-- Witness for C2 at a concrete input. -/
theorem C2_safe_default_witness :
    classify_command "ls -la" = CommandRisk.SAFE :=
  C2_safe_default.1 "ls -la" (by decide) (by decide)

/-- C3: under the DESTRUCTIVE tier, `get_confirmation` yields `"yes"` iff
the typed line is exactly `EXECUTE`; a line equal to `retry`/`r` up to
case yields `"retry"`; any other line yields `"no"`; and an interrupt or
end-of-input during the prompt yields `"no"`. -/
theorem C3_destructive_confirmation :
    (∀ s : String,
      get_confirmation CommandRisk.DESTRUCTIVE (.line s) = "yes" ↔ s = "EXECUTE") ∧
    (∀ s : String, pyLower s = "retry" ∨ pyLower s = "r" →
      get_confirmation CommandRisk.DESTRUCTIVE (.line s) = "retry") ∧
    (∀ s : String, s ≠ "EXECUTE" → pyLower s ≠ "retry" → pyLower s ≠ "r" →
      get_confirmation CommandRisk.DESTRUCTIVE (.line s) = "no") ∧
    get_confirmation CommandRisk.DESTRUCTIVE .interrupt = "no" ∧
    get_confirmation CommandRisk.DESTRUCTIVE .eof = "no" := by
  refine ⟨?_, ?_, ?_, rfl, rfl⟩
  · intro s
    constructor
    · intro h
      by_contra hs
      rw [get_confirmation] at h
      simp only [if_neg hs] at h
      by_cases hr : pyLower s = "retry" ∨ pyLower s = "r"
      · rcases hr with hr | hr <;> simp [hr] at h
      · push_neg at hr
        simp [hr.1, hr.2] at h
    · intro h
      subst h
      rfl
  · intro s h
    have hs : s ≠ "EXECUTE" := by
      intro he
      subst he
      revert h
      decide
    rcases h with h | h <;> simp [get_confirmation, hs, h]
  · intro s h1 h2 h3
    simp [get_confirmation, h1, h2, h3]

/-- Witness for C3 at concrete inputs. -/
theorem C3_destructive_confirmation_witness :
    get_confirmation CommandRisk.DESTRUCTIVE (.line "EXECUTE") = "yes" ∧
    get_confirmation CommandRisk.DESTRUCTIVE (.line "Retry") = "retry" ∧
    get_confirmation CommandRisk.DESTRUCTIVE (.line "execute") = "no" :=
  ⟨(C3_destructive_confirmation.1 "EXECUTE").mpr rfl,
   C3_destructive_confirmation.2.1 "Retry" (Or.inl (by decide)),
   C3_destructive_confirmation.2.2.1 "execute" (by decide) (by decide) (by decide)⟩

/-! ### Substring containment helpers -/

theorem leadsWith_append (w : List Char) :
    ∀ b, leadsWith w (w ++ b) = true := by
  induction w with
  | nil => intro b; rfl
  | cons c w ih => intro b; simp [leadsWith, ih]

theorem leadsWith_mono (w : List Char) :
    ∀ s b, leadsWith w s = true → leadsWith w (s ++ b) = true := by
  induction w with
  | nil => intro s b _; rfl
  | cons c w ih =>
    intro s b h
    cases s with
    | nil => simp [leadsWith] at h
    | cons d s =>
      simp only [leadsWith, Bool.and_eq_true, decide_eq_true_eq] at h ⊢
      exact ⟨h.1, ih s b h.2⟩

theorem containsSub_here (sub : List Char) :
    ∀ b, containsSub sub (sub ++ b) = true := by
  cases sub with
  | nil => intro b; cases b <;> simp [containsSub, leadsWith]
  | cons c w =>
    intro b
    show containsSub (c :: w) (c :: (w ++ b)) = true
    have h := leadsWith_append (c :: w) b
    rw [List.cons_append] at h
    simp [containsSub, h]

theorem containsSub_prepend (sub a : List Char) :
    ∀ s, containsSub sub s = true → containsSub sub (a ++ s) = true := by
  induction a with
  | nil => intro s h; simpa using h
  | cons c a ih =>
    intro s h
    show containsSub sub (c :: (a ++ s)) = true
    simp only [containsSub, Bool.or_eq_true]
    exact Or.inr (ih s h)

theorem containsSub_append_right (sub : List Char) :
    ∀ s b, containsSub sub s = true → containsSub sub (s ++ b) = true := by
  intro s
  induction s with
  | nil =>
    intro b h
    have hs : sub = [] := by
      cases sub with
      | nil => rfl
      | cons c w => simp [containsSub, leadsWith] at h
    subst hs
    cases b <;> simp [containsSub, leadsWith]
  | cons c s ih =>
    intro b h
    simp only [containsSub, Bool.or_eq_true] at h
    show containsSub sub (c :: (s ++ b)) = true
    simp only [containsSub, Bool.or_eq_true]
    rcases h with h | h
    · exact Or.inl (leadsWith_mono sub (c :: s) b h)
    · exact Or.inr (ih b h)

theorem containsSub_self (sub : List Char) : containsSub sub sub = true := by
  have h := containsSub_here sub []
  rwa [List.append_nil] at h

/-- C4: for every non-empty command passing syntax validation, `execute`
returns a structured result and never raises; the error (`raise`) cases
are exactly empty input and failed validation; a non-`cd` command's
result is `runSub`'s, and each of the five caught failure classes yields
exit code `-1` with a stderr naming the failure class and containing the
original command. -/
theorem C4_execute_errors :
    (∀ wd cmd sub env, pyStrip cmd ≠ "" → validate_syntax cmd = true →
      ∃ r newWd, execute wd cmd sub env = Except.ok (r, newWd)) ∧
    (∀ wd cmd sub env e, execute wd cmd sub env = Except.error e →
      pyStrip cmd = "" ∨ validate_syntax cmd = false) ∧
    (∀ wd cmd sub env, pyStrip cmd ≠ "" → validate_syntax cmd = true →
      pyStartsWith "cd " (pyStrip cmd) = false →
      execute wd cmd sub env = Except.ok (runSub cmd sub, wd)) ∧
    (∀ cmd po, (runSub cmd (.timedOut po)).exit_code = -1 ∧
      strContains "timed out" (runSub cmd (.timedOut po)).stderr = true ∧
      strContains cmd (runSub cmd (.timedOut po)).stderr = true) ∧
    (∀ cmd m, (runSub cmd (.permErr m)).exit_code = -1 ∧
      strContains "Permission denied" (runSub cmd (.permErr m)).stderr = true ∧
      strContains cmd (runSub cmd (.permErr m)).stderr = true) ∧
    (∀ cmd m, (runSub cmd (.notFound m)).exit_code = -1 ∧
      strContains "not found" (runSub cmd (.notFound m)).stderr = true ∧
      strContains cmd (runSub cmd (.notFound m)).stderr = true) ∧
    (∀ cmd m, (runSub cmd (.osErr m)).exit_code = -1 ∧
      strContains "Operating system error" (runSub cmd (.osErr m)).stderr = true ∧
      strContains cmd (runSub cmd (.osErr m)).stderr = true) ∧
    (∀ cmd ty m, (runSub cmd (.unexpected ty m)).exit_code = -1 ∧
      strContains "Unexpected execution error"
        (runSub cmd (.unexpected ty m)).stderr = true ∧
      strContains cmd (runSub cmd (.unexpected ty m)).stderr = true) := by
  have hstrip : ∀ cmd : String, pyStrip cmd ≠ "" → ¬ pyStripL cmd.data = [] := by
    intro cmd h
    simpa [pyStrip, String.ext_iff] using h
  refine ⟨?_, ?_, ?_, ?_, ?_, ?_, ?_, ?_⟩
  · intro wd cmd sub env h1 h2
    have h1' := hstrip cmd h1
    have h2' : ¬ validate_syntax cmd = false := by simp [h2]
    by_cases h3 : pyStartsWith "cd " (pyStrip cmd) = true
    · exact ⟨_, _, by rw [execute, if_neg h1', if_neg h2', if_pos h3]⟩
    · exact ⟨_, _, by rw [execute, if_neg h1', if_neg h2', if_neg h3]⟩
  · intro wd cmd sub env e h
    by_cases h1 : pyStripL cmd.data = []
    · exact Or.inl (by simp [pyStrip, String.ext_iff, h1])
    · by_cases h2 : validate_syntax cmd = false
      · exact Or.inr h2
      · exfalso
        rw [execute, if_neg h1, if_neg h2] at h
        by_cases h3 : pyStartsWith "cd " (pyStrip cmd) = true
        · rw [if_pos h3] at h; exact absurd h (by simp)
        · rw [if_neg h3] at h; exact absurd h (by simp)
  · intro wd cmd sub env h1 h2 h3
    rw [execute, if_neg (hstrip cmd h1), if_neg (by simp [h2]),
      if_neg (by simp [h3])]
  · intro cmd po
    refine ⟨rfl, ?_, ?_⟩
    · show containsSub "timed out".data
        (("Command timed out after 300 seconds\n  • The command may be waiting for input\n  • Try running with a shorter timeout or in the background\n  • Command: " : String)
          ++ cmd).data = true
      rw [String.data_append]
      exact containsSub_append_right _ _ _ (by decide)
    · show containsSub cmd.data (_ ++ cmd).data = true
      rw [String.data_append]
      exact containsSub_prepend _ _ _ (containsSub_self cmd.data)
  · intro cmd m
    refine ⟨rfl, ?_, ?_⟩
    · show containsSub "Permission denied".data
        ((("Permission denied: " : String) ++ m ++ _) ++ cmd).data = true
      rw [String.data_append, String.data_append, String.data_append]
      exact containsSub_append_right _ _ _
        (containsSub_append_right _ _ _
          (containsSub_append_right _ _ _ (by decide)))
    · show containsSub cmd.data (_ ++ cmd).data = true
      rw [String.data_append]
      exact containsSub_prepend _ _ _ (containsSub_self cmd.data)
  · intro cmd m
    refine ⟨rfl, ?_, ?_⟩
    · show containsSub "not found".data
        ((("Command or file not found: " : String) ++ m ++ _) ++ cmd).data = true
      rw [String.data_append, String.data_append, String.data_append]
      exact containsSub_append_right _ _ _
        (containsSub_append_right _ _ _
          (containsSub_append_right _ _ _ (by decide)))
    · show containsSub cmd.data (_ ++ cmd).data = true
      rw [String.data_append]
      exact containsSub_prepend _ _ _ (containsSub_self cmd.data)
  · intro cmd m
    refine ⟨rfl, ?_, ?_⟩
    · show containsSub "Operating system error".data
        ((("Operating system error: " : String) ++ m ++ _) ++ cmd).data = true
      rw [String.data_append, String.data_append, String.data_append]
      exact containsSub_append_right _ _ _
        (containsSub_append_right _ _ _
          (containsSub_append_right _ _ _ (by decide)))
    · show containsSub cmd.data (_ ++ cmd).data = true
      rw [String.data_append]
      exact containsSub_prepend _ _ _ (containsSub_self cmd.data)
  · intro cmd ty m
    refine ⟨rfl, ?_, ?_⟩
    · show containsSub "Unexpected execution error".data
        (((((("Unexpected execution error: " : String) ++ m) ++ _) ++ cmd) ++ _)
          ++ ty).data = true
      rw [String.data_append, String.data_append, String.data_append,
        String.data_append, String.data_append]
      exact containsSub_append_right _ _ _
        (containsSub_append_right _ _ _
          (containsSub_append_right _ _ _
            (containsSub_append_right _ _ _
              (containsSub_append_right _ _ _ (by decide)))))
    · show containsSub cmd.data
        (((((("Unexpected execution error: " : String) ++ m) ++ _) ++ cmd) ++ _)
          ++ ty).data = true
      rw [String.data_append, String.data_append, String.data_append,
        String.data_append, String.data_append]
      exact containsSub_append_right _ _ _
        (containsSub_append_right _ _ _
          (containsSub_prepend _ _ _ (containsSub_self cmd.data)))


/-- Witness for C4 at a concrete command and outcome. -/
theorem C4_execute_errors_witness :
    (∃ r newWd, execute "/" "echo hi" (.timedOut none) demoEnv
      = Except.ok (r, newWd)) ∧
    execute "/" "echo hi" (.timedOut none) demoEnv
      = Except.ok (runSub "echo hi" (.timedOut none), "/") :=
  ⟨C4_execute_errors.1 "/" "echo hi" (.timedOut none) demoEnv
      (by decide) (by decide),
   C4_execute_errors.2.2.1 "/" "echo hi" (.timedOut none) demoEnv
      (by decide) (by decide) (by decide)⟩

/-- C10: `execute` takes the directory-change path exactly for commands
whose stripped text starts with `"cd "`: any other command leaves the
working directory unchanged; a `cd `-prefixed command's behaviour is
independent of the subprocess outcome (it never reaches the subprocess);
a bare `cd` is not special-cased — it runs as an ordinary subprocess with
the working directory unchanged. -/
theorem C10_cd_prefix_gate :
    (∀ wd cmd sub env r newWd,
      ¬ pyStartsWith "cd " (pyStrip cmd) = true →
      execute wd cmd sub env = Except.ok (r, newWd) → newWd = wd) ∧
    (∀ wd cmd sub sub2 env,
      pyStartsWith "cd " (pyStrip cmd) = true →
      execute wd cmd sub env = execute wd cmd sub2 env) ∧
    (∀ wd sub env, execute wd "cd" sub env
      = Except.ok (runSub "cd" sub, wd)) ∧
    pyStartsWith "cd " (pyStrip "cd") = false := by
  refine ⟨?_, ?_, ?_, by decide⟩
  · intro wd cmd sub env r newWd h h2
    rw [execute] at h2
    by_cases h1 : pyStripL cmd.data = []
    · rw [if_pos h1] at h2; exact absurd h2 (by simp)
    · rw [if_neg h1] at h2
      by_cases hv : validate_syntax cmd = false
      · rw [if_pos hv] at h2; exact absurd h2 (by simp)
      · rw [if_neg hv, if_neg h] at h2
        simp only [Except.ok.injEq, Prod.mk.injEq] at h2
        exact h2.2.symm
  · intro wd cmd sub sub2 env h
    rw [execute, execute]
    by_cases h1 : pyStripL cmd.data = []
    · rw [if_pos h1, if_pos h1]
    · rw [if_neg h1, if_neg h1]
      by_cases hv : validate_syntax cmd = false
      · rw [if_pos hv, if_pos hv]
      · rw [if_neg hv, if_neg hv, if_pos h, if_pos h]
  · intro wd sub env
    rw [execute, if_neg (by decide), if_neg (by decide), if_neg (by decide)]

/-- Witness for C10 at concrete commands. -/
theorem C10_cd_prefix_gate_witness :
    ("/" : String) = "/" ∧
    execute "/tmp" "cd x" (.completed 0 "a" "") demoEnv
      = execute "/tmp" "cd x" (.completed 1 "b" "c") demoEnv :=
  ⟨C10_cd_prefix_gate.1 "/" "ls" (.completed 0 "" "") demoEnv
      ⟨"ls", "", "", 0⟩ "/" (by decide) (by rfl),
   C10_cd_prefix_gate.2.1 "/tmp" "cd x" (.completed 0 "a" "")
      (.completed 1 "b" "c") demoEnv (by decide)⟩

/-- C5: ritual steps execute strictly in list order; execution halts at
the first step whose executor call exits non-zero or raises — that step
ends `FAILED`, every later step keeps `PENDING` and its command is never
passed to the executor — and the success flag is set iff every step
returned exit code `0`. -/
theorem C5_ritual_halt
    (f : String → Except String (Int × String × String))
    (steps : List RitualStep) (hp : ∀ s ∈ steps, s.status = .PENDING) :
    (execute_ritual_steps f steps).success
        = steps.all (fun s => stepOk f s.command) ∧
    (execute_ritual_steps f steps).invoked
        = (steps.map RitualStep.command).take (okPrefixLen f steps + 1) ∧
    (execute_ritual_steps f steps).steps.map RitualStep.command
        = steps.map RitualStep.command ∧
    (∀ s ∈ (execute_ritual_steps f steps).steps.take (okPrefixLen f steps),
        s.status = .SUCCESS) ∧
    (∀ s', (execute_ritual_steps f steps).steps.get? (okPrefixLen f steps)
        = some s' → s'.status = .FAILED) ∧
    (∀ s ∈ (execute_ritual_steps f steps).steps.drop (okPrefixLen f steps + 1),
        s.status = .PENDING) := by
  induction steps with
  | nil => simp [execute_ritual_steps, okPrefixLen]
  | cons s rest ih =>
    have hpr : ∀ x ∈ rest, x.status = .PENDING := fun x hx => hp x (by simp [hx])
    obtain ⟨ih1, ih2, ih3, ih4, ih5, ih6⟩ := ih hpr
    by_cases hok : stepOk f s.command = true
    · obtain ⟨c, out, err, hf, hc⟩ :
          ∃ c out err, f s.command = Except.ok (c, out, err) ∧ c = 0 := by
        unfold stepOk at hok
        cases hf : f s.command with
        | ok t =>
          obtain ⟨c, out, err⟩ := t
          rw [hf] at hok
          exact ⟨c, out, err, rfl, by simpa using hok⟩
        | error m => rw [hf] at hok; simp at hok
      subst hc
      have hk : okPrefixLen f (s :: rest) = okPrefixLen f rest + 1 := by
        unfold okPrefixLen
        rw [@List.takeWhile_cons_of_pos RitualStep
          (fun st => stepOk f st.command) s rest hok]
        rfl
      have he : execute_ritual_steps f (s :: rest)
          = ⟨{ s with status := .SUCCESS, output := some out, error := some err }
              :: (execute_ritual_steps f rest).steps,
             (execute_ritual_steps f rest).success,
             s.command :: (execute_ritual_steps f rest).invoked⟩ := by
        simp [execute_ritual_steps, hf]
      rw [he, hk]
      refine ⟨?_, ?_, ?_, ?_, ?_, ?_⟩
      · simp [List.all_cons, hok, ih1]
      · simp [List.take_succ_cons, ih2]
      · simp [ih3]
      · intro x hx
        rw [List.take_succ_cons] at hx
        rcases List.mem_cons.mp hx with h | h
        · rw [h]
        · exact ih4 x h
      · intro s' h
        exact ih5 s' h
      · intro x hx
        exact ih6 x hx
    · have hk : okPrefixLen f (s :: rest) = 0 := by
        unfold okPrefixLen
        rw [@List.takeWhile_cons_of_neg RitualStep
          (fun st => stepOk f st.command) s rest hok]
        rfl
      cases hf : f s.command with
      | ok t =>
        obtain ⟨c, out, err⟩ := t
        have hc : ¬ c = 0 := by
          unfold stepOk at hok
          rw [hf] at hok
          simpa using hok
        have he : execute_ritual_steps f (s :: rest)
            = ⟨{ s with status := .FAILED, output := some out, error := some err }
                :: rest, false, [s.command]⟩ := by
          simp [execute_ritual_steps, hf, hc]
        rw [he, hk]
        refine ⟨by simp [List.all_cons, hok], by simp, by simp, by simp, ?_, ?_⟩
        · intro s' h
          simp only [List.get?] at h
          cases h
          rfl
        · intro x hx
          simp only [List.drop_succ_cons, List.drop_zero] at hx
          exact hpr x hx
      | error m =>
        have he : execute_ritual_steps f (s :: rest)
            = ⟨{ s with status := .FAILED, error := some m } :: rest,
               false, [s.command]⟩ := by
          simp [execute_ritual_steps, hf]
        rw [he, hk]
        refine ⟨by simp [List.all_cons, hok], by simp, by simp, by simp, ?_, ?_⟩
        · intro s' h
          simp only [List.get?] at h
          cases h
          rfl
        · intro x hx
          simp only [List.drop_succ_cons, List.drop_zero] at hx
          exact hpr x hx

/-- Witness for C5 with a three-step ritual whose second step fails. -/
theorem C5_ritual_halt_witness :
    (execute_ritual_steps demoF demoSteps).success
        = demoSteps.all (fun s => stepOk demoF s.command) ∧
    (execute_ritual_steps demoF demoSteps).invoked
        = (demoSteps.map RitualStep.command).take (okPrefixLen demoF demoSteps + 1) :=
  ⟨(C5_ritual_halt demoF demoSteps (by decide)).1,
   (C5_ritual_halt demoF demoSteps (by decide)).2.1⟩

/-! ### Suggestion retrieval lemmas -/

theorem maxTs_attained :
    ∀ (g : List HistoryRow), g ≠ [] → ∃ r ∈ g, r.timestamp = maxTs g := by
  intro g
  induction g with
  | nil => intro h; exact absurd rfl h
  | cons r g ih =>
    intro _
    cases g with
    | nil =>
      refine ⟨r, by simp, ?_⟩
      show r.timestamp = max r.timestamp (maxTs [])
      show r.timestamp = max r.timestamp 0
      omega
    | cons r2 g2 =>
      obtain ⟨x, hx, hmax⟩ := ih (by simp)
      by_cases hle : maxTs (r2 :: g2) ≤ r.timestamp
      · refine ⟨r, by simp, ?_⟩
        show r.timestamp = max r.timestamp (maxTs (r2 :: g2))
        rw [Nat.max_eq_left hle]
      · refine ⟨x, by simp [hx], ?_⟩
        show x.timestamp = max r.timestamp (maxTs (r2 :: g2))
        rw [Nat.max_eq_right (Nat.le_of_not_le hle)]
        exact hmax

theorem pickRep_spec {g : List HistoryRow} (h : g ≠ []) :
    ∃ rep, pickRep g = some rep ∧ rep ∈ g := by
  obtain ⟨r, hr, hmax⟩ := maxTs_attained g h
  have hsome : (g.find? fun r => r.timestamp == maxTs g).isSome := by
    rw [List.find?_isSome]
    exact ⟨r, hr, by simp [hmax]⟩
  obtain ⟨rep, hrep⟩ := Option.isSome_iff_exists.mp hsome
  exact ⟨rep, hrep, List.mem_of_find?_eq_some hrep⟩

/-- The representative of a `shell_command` group carries that command. -/
theorem pickRep_shell_command {filtered : List HistoryRow} {sc : String}
    {rep : HistoryRow} (h : pickRep (groupFor filtered sc) = some rep) :
    rep.shell_command = sc := by
  have hm : rep ∈ groupFor filtered sc := List.mem_of_find?_eq_some h
  have := (List.mem_filter.mp hm).2
  simpa using this

theorem sugLe_total (filtered : List HistoryRow) :
    ∀ a b, sugLe filtered a b ∨ sugLe filtered b a := by
  intro a b
  unfold sugLe
  rcases Nat.lt_trichotomy (groupFor filtered a.shell_command).length
      (groupFor filtered b.shell_command).length with h | h | h
  · exact Or.inr (Or.inl h)
  · rcases Nat.le_total (maxTs (groupFor filtered b.shell_command))
        (maxTs (groupFor filtered a.shell_command)) with h2 | h2
    · exact Or.inl (Or.inr ⟨h.symm, h2⟩)
    · exact Or.inr (Or.inr ⟨h, h2⟩)
  · exact Or.inl (Or.inl h)

theorem sugLe_trans (filtered : List HistoryRow) :
    ∀ a b c, sugLe filtered a b → sugLe filtered b c → sugLe filtered a c := by
  intro a b c h1 h2
  unfold sugLe at h1 h2 ⊢
  rcases h1 with h1 | ⟨h1e, h1le⟩ <;> rcases h2 with h2 | ⟨h2e, h2le⟩
  · exact Or.inl (by omega)
  · exact Or.inl (by omega)
  · exact Or.inl (by omega)
  · exact Or.inr ⟨by omega, h2le.trans h1le⟩

/-- Distinct shell commands yield representatives with distinct
shell commands. -/
theorem pairwise_ne_filterMap_pickRep (filtered : List HistoryRow) :
    ∀ (scs : List String), scs.Pairwise (· ≠ ·) →
      (scs.filterMap fun sc => pickRep (groupFor filtered sc)).Pairwise
        (fun a b => a.shell_command ≠ b.shell_command) := by
  intro scs
  induction scs with
  | nil => intro _; simp
  | cons sc scs ih =>
    intro hpw
    rw [List.pairwise_cons] at hpw
    obtain ⟨hne, htl⟩ := hpw
    rw [List.filterMap_cons]
    cases hp : pickRep (groupFor filtered sc) with
    | none => exact ih htl
    | some rep =>
      rw [List.pairwise_cons]
      refine ⟨?_, ih htl⟩
      intro b hb
      rcases List.mem_filterMap.mp hb with ⟨sc2, hsc2, hpick2⟩
      rw [pickRep_shell_command hp, pickRep_shell_command hpick2]
      exact hne sc2 hsc2

/-- C8 counterexample: the stored phrase `List Files` is returned for the
query `list` (SQLite `LIKE` is ASCII case-insensitive), although `list`
is not a case-sensitive substring of `List Files`. -/
theorem C8_counterexample :
    get_suggestions demoRows "list" 5
        = .ok [⟨1, "List Files", "ls", "/", 0, 5, 1⟩] ∧
    containsSub "list".data "List Files".data = false :=
  ⟨by rfl, by decide⟩

/-- C8 (amended): for a non-empty query and positive limit,
`get_suggestions` matches via SQLite `LIKE '%query%'` — ASCII
case-insensitive containment with `%`/`_` in the query acting as
wildcards, not case-sensitive substring containment — and never returns
an entry whose `natural_language` fails that `LIKE`; results carry at
most one entry per `shell_command`, are ordered by group frequency
descending then most-recent-use descending, and are capped at the
limit. -/
theorem C8_suggestions_like (rows : List HistoryRow) (nl : String)
    (limit : Int) (h1 : ¬ pyStripL nl.data = []) (h2 : 0 < limit) :
    ∃ l, get_suggestions rows nl limit = .ok l ∧
      (∀ e ∈ l, likeM (likePattern nl) e.natural_language.data = true) ∧
      l.length ≤ limit.toNat ∧
      l.Pairwise (fun a b => a.shell_command ≠ b.shell_command) ∧
      l.Sorted (sugLe (likeFiltered rows nl)) := by
  have h2' : ¬ limit ≤ 0 := by omega
  refine ⟨(List.insertionSort (sugLe (likeFiltered rows nl))
      (((likeFiltered rows nl).map HistoryRow.shell_command).dedup.filterMap
        fun sc => pickRep (groupFor (likeFiltered rows nl) sc))).take
        limit.toNat,
    by rw [get_suggestions, if_neg h1, if_neg h2'], ?_, ?_, ?_, ?_⟩
  · intro e he
    have h3 := List.mem_of_mem_take he
    have h4 := (List.perm_insertionSort _ _).mem_iff.mp h3
    rcases List.mem_filterMap.mp h4 with ⟨sc, _, hpick⟩
    have h5 := List.mem_of_find?_eq_some hpick
    have h6 := (List.mem_filter.mp h5).1
    exact (List.mem_filter.mp h6).2
  · exact List.length_take_le _ _
  · have hpair := pairwise_ne_filterMap_pickRep (likeFiltered rows nl)
      ((likeFiltered rows nl).map HistoryRow.shell_command).dedup
      (List.nodup_dedup _)
    have hps := (List.Perm.pairwise_iff (fun {_ _} h => Ne.symm h)
        (List.perm_insertionSort (sugLe (likeFiltered rows nl)) _)).mpr hpair
    exact hps.sublist (List.take_sublist _ _)
  · haveI : IsTotal HistoryRow (sugLe (likeFiltered rows nl)) :=
      ⟨sugLe_total (likeFiltered rows nl)⟩
    haveI : IsTrans HistoryRow (sugLe (likeFiltered rows nl)) :=
      ⟨sugLe_trans (likeFiltered rows nl)⟩
    have hs := List.sorted_insertionSort (sugLe (likeFiltered rows nl))
      (((likeFiltered rows nl).map HistoryRow.shell_command).dedup.filterMap
        fun sc => pickRep (groupFor (likeFiltered rows nl) sc))
    exact hs.sublist (List.take_sublist _ _)

/-- Witness for C8's amended statement at a concrete store and query. -/
theorem C8_suggestions_like_witness :
    ∃ l, get_suggestions demoRows "list" 5 = .ok l ∧
      (∀ e ∈ l, likeM (likePattern "list") e.natural_language.data = true) ∧
      l.length ≤ (5 : Int).toNat ∧
      l.Pairwise (fun a b => a.shell_command ≠ b.shell_command) ∧
      l.Sorted (sugLe (likeFiltered demoRows "list")) :=
  C8_suggestions_like demoRows "list" 5 (by decide) (by decide)

/-- C9: `save_command` rejects an empty (or whitespace-only)
natural language, an empty shell command, or a negative execution time,
raising before any persistence — the stored history is unchanged — and
with valid arguments appends exactly one row. -/
theorem C9_save_validates :
    (∀ (nl cmd : String) (ec t : Int) (wd : String) (nid ts : Nat)
        (st : List HistoryRow),
      pyStripL nl.data = [] ∨ pyStripL cmd.data = [] ∨ t < 0 →
      (save_command nl cmd ec t wd nid ts st).1 = st ∧
        (save_command nl cmd ec t wd nid ts st).2.isSome = true) ∧
    (∀ (nl cmd : String) (ec t : Int) (wd : String) (nid ts : Nat)
        (st : List HistoryRow),
      ¬ pyStripL nl.data = [] → ¬ pyStripL cmd.data = [] → 0 ≤ t →
      (save_command nl cmd ec t wd nid ts st).1
          = st ++ [⟨nid, nl, cmd, wd, ec, ts, t⟩] ∧
        (save_command nl cmd ec t wd nid ts st).2 = none) := by
  constructor
  · intro nl cmd ec t wd nid ts st h
    unfold save_command
    split_ifs with a b c
    · exact ⟨rfl, rfl⟩
    · exact ⟨rfl, rfl⟩
    · exact ⟨rfl, rfl⟩
    · exfalso
      rcases h with h | h | h
      · exact a h
      · exact b h
      · exact c h
  · intro nl cmd ec t wd nid ts st h1 h2 h3
    rw [save_command, if_neg h1, if_neg h2, if_neg (by omega)]
    exact ⟨rfl, rfl⟩

/-- Witness for C9 at a concrete valid and a concrete invalid call. -/
theorem C9_save_validates_witness :
    ((save_command "" "ls" 0 1 "/" 1 2 []).1 = [] ∧
      (save_command "" "ls" 0 1 "/" 1 2 []).2.isSome = true) ∧
    ((save_command "list" "ls" 0 1 "/" 1 2 []).1
        = [⟨1, "list", "ls", "/", 0, 2, 1⟩] ∧
      (save_command "list" "ls" 0 1 "/" 1 2 []).2 = none) :=
  ⟨C9_save_validates.1 "" "ls" 0 1 "/" 1 2 [] (Or.inl (by decide)),
   C9_save_validates.2 "list" "ls" 0 1 "/" 1 2 []
     (by decide) (by decide) (by decide)⟩

end Haunted
